import Mathlib

/-!
Shallow embedding of the constant-expression subsystem of the kphp compiler
(const-manipulations.h): the ConstManipulations dispatch core and its five
specializations CheckConst, CheckConstWithDefines, MakeConst, ArrayHash and
VertexPtrFormatter, together with theorems checking the specification.
-/

namespace KphpConst

/-- The trivial-literal kinds routed to on_trivial by ConstManipulations::visit. -/
inductive TrivKind where
  | op_int_const
  | op_uint_const
  | op_long_const
  | op_ulong_const
  | op_float_const
  | op_string
  | op_false
  | op_true
  | op_null
deriving DecidableEq

/-- The unary-operator kinds routed to on_unary. -/
inductive UnaryKind where
  | op_minus
  | op_plus
  | op_not
deriving DecidableEq

/-- The binary-operator kinds routed to on_binary. -/
inductive BinKind where
  | op_add
  | op_mul
  | op_sub
  | op_div
  | op_mod
  | op_pow
  | op_and
  | op_or
  | op_xor
  | op_shl
  | op_shr
deriving DecidableEq

/-- Expression node (VertexPtr tree).  A variable reference carries its name,
the flag extra_type == op_ex_var_const, and the optional resolved binding
get_var_id(), itself carrying is_constant() and init_val.  The fourteen
op_conv_* kinds are all routed identically to on_conv, so one conv
constructor models them.  Node kinds outside the dispatch switch are
modelled by the other constructor, carrying the kind tag and the optional
string payload. -/
inductive Vertex where
  | trivial (k : TrivKind) (s : String)
  | conv (expr : Vertex)
  | unary (k : UnaryKind) (expr : Vertex)
  | binary (k : BinKind) (lhs rhs : Vertex)
  | arr (args : List Vertex)
  | double_arrow (key value : Vertex)
  | var (name : String) (extra_var_const : Bool) (var_id : Option (Bool × Vertex))
  | instance_prop (obj : Vertex) (prop : String)
  | func_name (name : String)
  | define_val (val : Vertex)
  | concat (args : List Vertex)
  | string_build (args : List Vertex)
  | other (tag : String) (str_val : Option String)

/-- Modelled from the spec: the external actual-value resolver
GenTree::get_actual_value (gentree, not under src).  Per the spec it
dereferences a variable or define reference to its underlying value
expression when such a binding exists and returns the node itself
otherwise: a variable with extra_type == op_ex_var_const and a non-null
get_var_id() resolves to the init_val of the binding, and an op_define_val
resolves to its stored value. -/
def get_actual_value : Vertex → Vertex
  | .var _ true (some (_, iv)) => iv
  | .define_val v => v
  | v => v

/-- Modelled from the spec: which node kinds carry a string payload
(has_get_string).  String-representable literals do; op_true, op_false and
op_null do not; variable, function-name and instance-property references
carry their identifier text. -/
def has_get_string : Vertex → Bool
  | .trivial k _ =>
    match k with
    | .op_true => false
    | .op_false => false
    | .op_null => false
    | _ => true
  | .var _ _ _ => true
  | .func_name _ => true
  | .instance_prop _ _ => true
  | .other _ s => s.isSome
  | _ => false

/-- Modelled from the spec: get_string, the string payload of a node.  Kinds
without a payload yield the empty string; the source guards every use by
has_get_string except the best-effort error path of the folder. -/
def get_string : Vertex → String
  | .trivial _ s => s
  | .var n _ _ => n
  | .func_name n => n
  | .instance_prop _ p => p
  | .other _ s => s.getD ""
  | _ => ""

/-- Modelled from the spec: OpInfo::str on trivial-literal kinds (the textual
node-kind tag; the exact spelling lives outside src, distinctness is what
matters). -/
def trivStr : TrivKind → String
  | .op_int_const => "int_const"
  | .op_uint_const => "uint_const"
  | .op_long_const => "long_const"
  | .op_ulong_const => "ulong_const"
  | .op_float_const => "float_const"
  | .op_string => "string"
  | .op_false => "false"
  | .op_true => "true"
  | .op_null => "null"

/-- Modelled from the spec: OpInfo::str on unary-operator kinds. -/
def unaryStr : UnaryKind → String
  | .op_minus => "minus"
  | .op_plus => "plus"
  | .op_not => "log_not"

/-- Modelled from the spec: OpInfo::str on binary-operator kinds. -/
def binStr : BinKind → String
  | .op_add => "add"
  | .op_mul => "mul"
  | .op_sub => "sub"
  | .op_div => "div"
  | .op_mod => "mod"
  | .op_pow => "pow"
  | .op_and => "and"
  | .op_or => "or"
  | .op_xor => "xor"
  | .op_shl => "shl"
  | .op_shr => "shr"

/-- Modelled from the spec: OpInfo::str on a whole node (its kind tag). -/
def opStr : Vertex → String
  | .trivial k _ => trivStr k
  | .conv _ => "conv"
  | .unary k _ => unaryStr k
  | .binary k _ _ => binStr k
  | .arr _ => "array"
  | .double_arrow _ _ => "double_arrow"
  | .var _ _ _ => "var"
  | .instance_prop _ _ => "instance_prop"
  | .func_name _ => "func_name"
  | .define_val _ => "define_val"
  | .concat _ => "concat"
  | .string_build _ => "string_build"
  | .other t _ => t

theorem sizeOf_get_actual_value_le (v : Vertex) :
    sizeOf (get_actual_value v) ≤ sizeOf v := by
  unfold get_actual_value
  split <;> simp <;> omega

mutual

/-- CheckConst::visit, driven through ConstManipulations::visit: decides
whether a subtree is a compile-time constant (is_const). -/
def is_const : Vertex → Bool
  | .trivial _ _ => true
  | .conv e => is_const e
  | .unary _ e => is_const e
  | .binary _ l r =>
    is_const (get_actual_value l) && is_const (get_actual_value r)
  | .arr es => is_const_args es
  | .var _ extra vid =>
    match vid with
    | some (isc, iv) => if extra || isc then is_const iv else false
    | none => false
  | _ => false
termination_by v => sizeOf v
decreasing_by
  all_goals simp_wf
  all_goals first
  | omega
  | (have hl := sizeOf_get_actual_value_le l
     have hr := sizeOf_get_actual_value_le r
     omega)

/-- The array orchestration of ConstManipulations::on_array as instantiated
by CheckConst: key-value elements probe both resolved sides, bare elements
probe their resolved value; the first rejection makes the whole array
non-constant, otherwise on_array_finish accepts it. -/
def is_const_args : List Vertex → Bool
  | [] => true
  | .double_arrow k v :: rest =>
    (is_const (get_actual_value k) && is_const (get_actual_value v)) &&
      is_const_args rest
  | e :: rest => is_const (get_actual_value e) && is_const_args rest
termination_by es => sizeOf es
decreasing_by
  all_goals simp_wf
  all_goals first
  | omega
  | (have hk := sizeOf_get_actual_value_le k
     have hv := sizeOf_get_actual_value_le v
     omega)
  | (have he := sizeOf_get_actual_value_le e
     omega)

end

/-- CheckConst::is_const, the public entry point. -/
def CheckConst_is_const (v : Vertex) : Bool := is_const v

mutual

/-- MakeConst::visit / make_const, the constant folder.  The result models
the three possible outcomes of the C++ call: none is a crash (a null
VertexPtr dereference, e.g. G->get_define(name) returning null before
->val, or visiting a child that folded to the empty pointer), and
some (r, ds) is a normal return carrying the diagnostics ds issued via
kphp_error, where r = none models returning the default-constructed empty
VertexPtr {} and r = some w a real result vertex.  Installing an empty
pointer as a child of a composite node makes every later use of that child
a null dereference, so the model marks those paths as crashes at the point
the empty child is produced. -/
def make_const (resolve : String → String) (defs : String → Option Vertex) :
    Vertex → Option (Option Vertex × List String)
  | .trivial k s => some (some (.trivial k s), [])
  | .conv e => make_const resolve defs e
  | .unary k e =>
    match make_const resolve defs e with
    | none => none
    | some (none, _) => none
    | some (some e2, ds) => some (some (.unary k e2), ds)
  | .binary k l r =>
    match make_const resolve defs l with
    | none => none
    | some (none, _) => none
    | some (some l2, ds1) =>
      match make_const resolve defs r with
      | none => none
      | some (none, _) => none
      | some (some r2, ds2) => some (some (.binary k l2 r2), ds1 ++ ds2)
  | .arr es =>
    match make_const_args resolve defs es with
    | none => none
    | some (es2, ds) => some (some (.arr es2), ds)
  | .concat es =>
    match make_const_strings resolve defs es with
    | none => none
    | some (sv, ds) => some (some (.trivial .op_string sv), ds)
  | .string_build es =>
    match make_const_strings resolve defs es with
    | none => none
    | some (sv, ds) => some (some (.trivial .op_string sv), ds)
  | .func_name n =>
    match defs (resolve n) with
    | some dv => some (some dv, [])
    | none => none
  | .var _ _ _ => some (none, [])
  | .instance_prop _ _ => some (none, [])
  | .define_val _ => some (none, [])
  | .double_arrow _ _ => some (none, [])
  | .other _ _ => some (none, [])
termination_by v => sizeOf v

/-- The on_array orchestration as instantiated by MakeConst: both probe
hooks fold the element components in place and always accept, so
on_array_finish returns the array with folded children. -/
def make_const_args (resolve : String → String) (defs : String → Option Vertex) :
    List Vertex → Option (List Vertex × List String)
  | [] => some ([], [])
  | .double_arrow k v :: rest =>
    match make_const resolve defs k with
    | none => none
    | some (none, _) => none
    | some (some k2, ds1) =>
      match make_const resolve defs v with
      | none => none
      | some (none, _) => none
      | some (some v2, ds2) =>
        match make_const_args resolve defs rest with
        | none => none
        | some (rest2, ds3) =>
          some (.double_arrow k2 v2 :: rest2, ds1 ++ ds2 ++ ds3)
  | e :: rest =>
    match make_const resolve defs e with
    | none => none
    | some (none, _) => none
    | some (some e2, ds1) =>
      match make_const_args resolve defs rest with
      | none => none
      | some (rest2, ds2) => some (e2 :: rest2, ds1 ++ ds2)
termination_by es => sizeOf es

/-- MakeConst::on_non_const on an op_concat / op_string_build node: every
child is folded, a folded child without a string representation is
reported through kphp_error naming its kind tag, and the string
payloads are accumulated into the fresh op_string node; per the spec the
diagnostic channel reports without aborting, so the loop continues
best-effort over the remaining elements.  A child folding to the empty
VertexPtr makes res->has_get_string() a null dereference: modelled as a
crash (none). -/
def make_const_strings (resolve : String → String) (defs : String → Option Vertex) :
    List Vertex → Option (String × List String)
  | [] => some ("", [])
  | e :: rest =>
    match make_const resolve defs e with
    | none => none
    | some (none, _) => none
    | some (some r, ds1) =>
      let err : List String :=
        if has_get_string r then []
        else ["expected type convertible to string, but got: " ++ opStr r]
      match make_const_strings resolve defs rest with
      | none => none
      | some (sv, ds2) => some (get_string r ++ sv, ds1 ++ err ++ ds2)
termination_by es => sizeOf es

end

mutual

/-- CheckConstWithDefines::visit, threading the in_concat nesting counter
as explicit state.  The checker is parameterized by the external
resolve_define_name canonicalizer and the global define table G->get_define
(both collaborators outside src).  Resolving a found define recurses into
an arbitrary stored value expression, which the source does without any
cycle protection (an open question per the spec); the fuel parameter bounds
that one non-structural edge, and an exhausted fuel yields false with the
counter untouched. -/
def check_wd (resolve : String → String) (defs : String → Option Vertex) :
    Nat → Vertex → Int → Bool × Int
  | _, .trivial k s, c => (decide (c = 0) || has_get_string (.trivial k s), c)
  | fuel, .conv e, c => check_wd resolve defs fuel e c
  | fuel, .unary _ e, c => check_wd resolve defs fuel e c
  | fuel, .binary _ l r, c =>
    match check_wd resolve defs fuel (get_actual_value l) c with
    | (false, c1) => (false, c1)
    | (true, c1) => check_wd resolve defs fuel (get_actual_value r) c1
  | fuel, .arr es, c => check_wd_args resolve defs fuel es c
  | fuel, .var _ extra vid, c =>
    match vid with
    | some (isc, iv) =>
      if extra || isc then check_wd resolve defs fuel iv c else (false, c)
    | none => (false, c)
  | fuel, .func_name n, c =>
    match defs (resolve n) with
    | some dv =>
      match fuel with
      | 0 => (false, c)
      | fuel2 + 1 => check_wd resolve defs fuel2 dv c
    | none => (false, c)
  | fuel, .concat es, c => check_wd_concat resolve defs fuel es (c + 1)
  | fuel, .string_build es, c => check_wd_concat resolve defs fuel es (c + 1)
  | _, .double_arrow _ _, c => (false, c)
  | _, .instance_prop _ _, c => (false, c)
  | _, .define_val _, c => (false, c)
  | _, .other _ _, c => (false, c)
termination_by fuel v _ => (fuel, sizeOf v)
decreasing_by
  all_goals simp_wf
  all_goals first
  | (apply Prod.Lex.left
     omega)
  | (apply Prod.Lex.right
     first
     | omega
     | (have hl := sizeOf_get_actual_value_le l
        have hr := sizeOf_get_actual_value_le r
        omega))

/-- The on_array orchestration as driven by CheckConstWithDefines (probe
hooks inherited from CheckConst, on_non_const from the subclass: an
op_array is not an op_concat, so a rejected element yields false with the
counter unchanged at that point). -/
def check_wd_args (resolve : String → String) (defs : String → Option Vertex) :
    Nat → List Vertex → Int → Bool × Int
  | _, [], c => (true, c)
  | fuel, .double_arrow k v :: rest, c =>
    match check_wd resolve defs fuel (get_actual_value k) c with
    | (false, c1) => (false, c1)
    | (true, c1) =>
      match check_wd resolve defs fuel (get_actual_value v) c1 with
      | (false, c2) => (false, c2)
      | (true, c2) => check_wd_args resolve defs fuel rest c2
  | fuel, e :: rest, c =>
    match check_wd resolve defs fuel (get_actual_value e) c with
    | (false, c1) => (false, c1)
    | (true, c1) => check_wd_args resolve defs fuel rest c1
termination_by fuel es _ => (fuel, sizeOf es)
decreasing_by
  all_goals simp_wf
  all_goals
    apply Prod.Lex.right
  all_goals first
  | omega
  | (have hk := sizeOf_get_actual_value_le k
     have hv := sizeOf_get_actual_value_le v
     omega)
  | (have he := sizeOf_get_actual_value_le e
     omega)

/-- The child loop of CheckConstWithDefines::on_non_const on an op_concat /
op_string_build node, entered with the counter already incremented: the
counter is decremented again before returning on the failure path (first
non-constant child) and on the success path (loop completed). -/
def check_wd_concat (resolve : String → String) (defs : String → Option Vertex) :
    Nat → List Vertex → Int → Bool × Int
  | _, [], c => (true, c - 1)
  | fuel, e :: rest, c =>
    match check_wd resolve defs fuel e c with
    | (false, c1) => (false, c1 - 1)
    | (true, c1) => check_wd_concat resolve defs fuel rest c1
termination_by fuel es _ => (fuel, sizeOf es)
decreasing_by
  all_goals simp_wf
  all_goals
    apply Prod.Lex.right
  all_goals omega

end

/-- CheckConstWithDefines::is_const, the public entry point: a fresh
instance starts with in_concat = 0. -/
def CheckConstWithDefines_is_const (resolve : String → String)
    (defs : String → Option Vertex) (fuel : Nat) (v : Vertex) : Bool :=
  (check_wd resolve defs fuel v 0).1

/-- Wrap-around of a signed 64-bit value in two-complement style, the machine
meaning of C++ long long arithmetic. -/
def wrap64 (z : Int) : Int := (z + 2 ^ 63) % 2 ^ 64 - 2 ^ 63

/-- ArrayHash::HASH_MULT. -/
def HASH_MULT : Int := 56235515617499

/-- ArrayHash::MAGIC1. -/
def MAGIC1 : Int := 536536536536960

/-- ArrayHash::MAGIC2. -/
def MAGIC2 : Int := 288288288288069

/-- ArrayHash::feed_hash: cur_hash = cur_hash * HASH_MULT + val on 64-bit
signed machine integers. -/
def feed_hash (h val : Int) : Int := wrap64 (h * HASH_MULT + val)

mutual

/-- ArrayHash::visit, threading cur_hash as explicit state.  The hasher is
parameterized by the external string_hash function (common-php-functions.h,
not under src); feed_hash_string s is feed_hash (sh s).  A none result
models the absence of a normal return: on_non_const fires
kphp_assert_msg(false, ...) and aborts the process, and a variable
reference whose actual value is itself makes on_var recurse on the same
node forever in the source. -/
def array_hash (sh : String → Int) : Vertex → Int → Option Int
  | .trivial k s, h =>
    some (feed_hash h (sh (trivStr k ++
      (if has_get_string (.trivial k s) then s else ""))))
  | .conv e, h => array_hash sh e h
  | .unary k e, h => array_hash sh e (feed_hash h (sh (unaryStr k)))
  | .define_val v, h => array_hash sh v h
  | .binary k l r, h =>
    match array_hash sh l h with
    | none => none
    | some h1 => array_hash sh r (feed_hash h1 (sh (binStr k)))
  | .double_arrow k v, h =>
    match array_hash sh (get_actual_value k) h with
    | none => none
    | some h1 =>
      array_hash sh (get_actual_value v) (feed_hash h1 (sh "=>"))
  | .arr es, h =>
    match array_hash_args sh es
        (feed_hash (feed_hash h (es.length : Int)) MAGIC1) with
    | none => none
    | some h1 => some (feed_hash h1 MAGIC2)
  | .var _ true (some (_, iv)), h => array_hash sh iv h
  | .var _ true none, _ => none
  | .var _ false _, _ => none
  | _, _ => none
termination_by v _ => sizeOf v
decreasing_by
  all_goals simp_wf
  all_goals first
  | omega
  | (have hk := sizeOf_get_actual_value_le k
     have hv := sizeOf_get_actual_value_le v
     omega)

/-- The element loop of ArrayHash::on_array: each element is resolved to
its actual value and hashed in order. -/
def array_hash_args (sh : String → Int) : List Vertex → Int → Option Int
  | [], h => some h
  | e :: rest, h =>
    match array_hash sh (get_actual_value e) h with
    | none => none
    | some h1 => array_hash_args sh rest h1
termination_by es _ => sizeOf es
decreasing_by
  all_goals simp_wf
  all_goals first
  | omega
  | (have he := sizeOf_get_actual_value_le e
     omega)

end

/-- ArrayHash::calc_hash: a fresh accumulator starting at 0, visiting the
actual value of the argument. -/
def calc_hash (sh : String → Int) (v : Vertex) : Option Int :=
  array_hash sh (get_actual_value v) 0

mutual

/-- VertexPtrFormatter::visit: renders a node to its canonical diagnostic
string.  A none result models the fatal kphp_assert_msg path of
on_non_const on a node without a string payload. -/
def to_string_visit : Vertex → Option String
  | .trivial k s =>
    some ((if has_get_string (.trivial k s) then s ++ ":" else "") ++ trivStr k)
  | .conv e => to_string_visit e
  | .unary k e =>
    match to_string_visit e with
    | none => none
    | some t => some (t ++ ":" ++ unaryStr k)
  | .define_val v => to_string_visit v
  | .binary k l r =>
    match to_string_visit l with
    | none => none
    | some tl =>
      match to_string_visit r with
      | none => none
      | some tr => some ("(" ++ tl ++ binStr k ++ tr ++ ")")
  | .double_arrow k v =>
    match to_string_visit (get_actual_value k) with
    | none => none
    | some tk =>
      match to_string_visit (get_actual_value v) with
      | none => none
      | some tv => some (tk ++ "=>" ++ tv)
  | .arr es => to_string_args es
  | .var n e vid => some (n ++ opStr (.var n e vid))
  | .instance_prop obj p =>
    match to_string_visit obj with
    | none => none
    | some t => some (t ++ "->" ++ p)
  | v => if has_get_string v then some (get_string v ++ opStr v) else none
termination_by v => sizeOf v
decreasing_by
  all_goals simp_wf
  all_goals first
  | omega
  | (have hk := sizeOf_get_actual_value_le k
     have hv := sizeOf_get_actual_value_le v
     omega)

/-- The element loop of VertexPtrFormatter::on_array: each element is
resolved to its actual value, formatted, and followed by a comma-space
separator, the last one included. -/
def to_string_args : List Vertex → Option String
  | [] => some ""
  | e :: rest =>
    match to_string_visit (get_actual_value e) with
    | none => none
    | some t =>
      match to_string_args rest with
      | none => none
      | some acc => some (t ++ ", " ++ acc)
termination_by es => sizeOf es
decreasing_by
  all_goals simp_wf
  all_goals first
  | omega
  | (have he := sizeOf_get_actual_value_le e
     omega)

end

/-- VertexPtrFormatter::to_string, the public entry point: visits the
actual value of the argument. -/
def to_string (v : Vertex) : Option String :=
  to_string_visit (get_actual_value v)

/-- The loop of ConstManipulations::on_array, the array
orchestration (lines 44-57), generic in the visitor: the boolean probe
hooks on_array_double_arrow (onADA) and on_array_value (onAV) and the
fallbacks on_non_const (onNC) and on_array_finish (onFin) are parameters.
Elements are visited in index order from i; a key-value element is probed
with onADA, a bare element with onAV, a rejection reroutes the whole array
node to onNC, and running past the last element calls onFin. -/
def on_array_go {T : Type} (onADA : Vertex → Bool) (onAV : List Vertex → Nat → Bool)
    (onNC : Vertex → T) (onFin : Vertex → T) (es : List Vertex) (i : Nat) : T :=
  if h : i < es.length then
    match es.get ⟨i, h⟩ with
    | .double_arrow k v =>
      if onADA (.double_arrow k v) then on_array_go onADA onAV onNC onFin es (i + 1)
      else onNC (.arr es)
    | _ =>
      if onAV es i then on_array_go onADA onAV onNC onFin es (i + 1)
      else onNC (.arr es)
  else onFin (.arr es)
termination_by es.length - i

/-- ConstManipulations::on_array itself: the loop started at index 0. -/
def dispatch_on_array {T : Type} (onADA : Vertex → Bool)
    (onAV : List Vertex → Nat → Bool) (onNC : Vertex → T) (onFin : Vertex → T)
    (es : List Vertex) : T :=
  on_array_go onADA onAV onNC onFin es 0

/-- Whether the visitor accepts element i of the array: a key-value element
is acceptable when on_array_double_arrow accepts it, a bare element when
on_array_value accepts the array at that index. -/
def array_probe (onADA : Vertex → Bool) (onAV : List Vertex → Nat → Bool)
    (es : List Vertex) (i : Nat) : Bool :=
  match es.getD i (.arr []) with
  | .double_arrow k v => onADA (.double_arrow k v)
  | _ => onAV es i

/-- Whether the visitor accepts every element of the array. -/
def array_probes_ok (onADA : Vertex → Bool) (onAV : List Vertex → Nat → Bool)
    (es : List Vertex) : Bool :=
  (List.range es.length).all (array_probe onADA onAV es)

theorem check_wd_preserves (resolve : String → String) (defs : String → Option Vertex) :
    ∀ fuel v c, (check_wd resolve defs fuel v c).2 = c := by
  intro fuel v c
  apply check_wd.induct resolve defs
    (fun fuel v c => (check_wd resolve defs fuel v c).2 = c)
    (fun fuel es c => (check_wd_concat resolve defs fuel es c).2 = c - 1)
    (fun fuel es c => (check_wd_args resolve defs fuel es c).2 = c)
  all_goals intros
  all_goals simp_all [check_wd, check_wd_args, check_wd_concat]

theorem check_wd_concat_decrements (resolve : String → String)
    (defs : String → Option Vertex) :
    ∀ fuel es c, (check_wd_concat resolve defs fuel es c).2 = c - 1 := by
  intro fuel es c
  apply check_wd_concat.induct resolve defs
    (fun fuel v c => (check_wd resolve defs fuel v c).2 = c)
    (fun fuel es c => (check_wd_concat resolve defs fuel es c).2 = c - 1)
    (fun fuel es c => (check_wd_args resolve defs fuel es c).2 = c)
  all_goals intros
  all_goals simp_all [check_wd, check_wd_args, check_wd_concat]

/-- C4: in the defines-aware constancy checker, the child loop of the
concatenation handler (entered with the in_concat counter already
incremented) returns the counter decremented by one on every path, both
on early rejection and on completed success, and consequently a top-level
is_const call leaves the counter at zero again whatever the result. -/
theorem c4_in_concat_balanced (resolve : String → String)
    (defs : String → Option Vertex) :
    (∀ fuel es c, (check_wd_concat resolve defs fuel es c).2 = c - 1) ∧
    (∀ fuel v, (check_wd resolve defs fuel v 0).2 = 0) := by
  exact ⟨check_wd_concat_decrements resolve defs,
    fun fuel v => check_wd_preserves resolve defs fuel v 0⟩

/-- C10: a concatenation or string-build node with zero children is
accepted as constant by the defines-aware constancy checker. -/
theorem c10_empty_concat_const (resolve : String → String)
    (defs : String → Option Vertex) (fuel : Nat) :
    CheckConstWithDefines_is_const resolve defs fuel (.concat []) = true ∧
    CheckConstWithDefines_is_const resolve defs fuel (.string_build []) = true := by
  constructor <;> simp [CheckConstWithDefines_is_const, check_wd, check_wd_concat]

/-- C5: CheckConst::is_const on a variable reference is true exactly when
the reference carries a binding that is constant-marked (the reference
bears the op_ex_var_const annotation, or the bound variable self-reports
is_constant), and the stored initializer expression of the binding is itself
constant. -/
theorem c5_var_const_iff (n : String) (extra : Bool) (vid : Option (Bool × Vertex)) :
    CheckConst_is_const (.var n extra vid) = true ↔
    ∃ isc iv, vid = some (isc, iv) ∧ (extra = true ∨ isc = true) ∧
      CheckConst_is_const iv = true := by
  unfold CheckConst_is_const
  match vid with
  | none => simp [is_const]
  | some (isc, iv) => cases extra <;> cases isc <;> simp [is_const]

theorem array_probe_da {onADA : Vertex → Bool} {onAV : List Vertex → Nat → Bool}
    (es : List Vertex) (i : Nat) (h : i < es.length) (k v : Vertex)
    (hE : es.get ⟨i, h⟩ = .double_arrow k v) :
    array_probe onADA onAV es i = onADA (.double_arrow k v) := by
  rw [List.get_eq_getElem] at hE
  rw [array_probe, List.getD_eq_getElem _ _ h, hE]

theorem array_probe_bare {onADA : Vertex → Bool} {onAV : List Vertex → Nat → Bool}
    (es : List Vertex) (i : Nat) (h : i < es.length)
    (hE : ∀ k v, es.get ⟨i, h⟩ ≠ .double_arrow k v) :
    array_probe onADA onAV es i = onAV es i := by
  rw [array_probe, List.getD_eq_getElem _ _ h]
  rw [List.get_eq_getElem] at hE
  cases hh : es[i]
  case double_arrow k v => exact absurd hh (hE k v)
  all_goals rfl

theorem on_array_go_spec {T : Type} (onADA : Vertex → Bool)
    (onAV : List Vertex → Nat → Bool) (onNC : Vertex → T) (onFin : Vertex → T)
    (es : List Vertex) : ∀ n i, es.length - i = n →
    on_array_go onADA onAV onNC onFin es i =
      if (List.range' i n).all (array_probe onADA onAV es) then onFin (.arr es)
      else onNC (.arr es) := by
  intro n
  induction n with
  | zero =>
    intro i hi
    rw [on_array_go]
    have h : ¬i < es.length := by omega
    simp [h]
  | succ n ih =>
    intro i hi
    have h : i < es.length := by omega
    rw [on_array_go, dif_pos h, List.range'_succ, List.all_cons]
    cases hh : es.get ⟨i, h⟩
    case double_arrow k v =>
      rw [array_probe_da es i h k v hh]
      cases hDA : onADA (.double_arrow k v)
      · simp [hDA]
      · simp [hDA, ih (i + 1) (by omega)]
    all_goals
      rw [array_probe_bare es i h (by intro a b hc; rw [hh] at hc; simp at hc)]
    all_goals cases hAV : onAV es i
    all_goals simp [hAV, ih (i + 1) (by omega)]

/-- C7: the array orchestration of the dispatch core probes the elements in
index order, key-value elements through on_array_double_arrow and bare
elements through on_array_value, and its result is all-or-nothing: the
whole array node goes to on_non_const as soon as any probe rejects, and
on_array_finish is called exactly when every probe accepts. -/
theorem c7_array_all_or_nothing {T : Type} (onADA : Vertex → Bool)
    (onAV : List Vertex → Nat → Bool) (onNC : Vertex → T) (onFin : Vertex → T)
    (es : List Vertex) :
    dispatch_on_array onADA onAV onNC onFin es =
      if array_probes_ok onADA onAV es then onFin (.arr es) else onNC (.arr es) := by
  rw [dispatch_on_array, on_array_go_spec onADA onAV onNC onFin es es.length 0 (by omega),
    array_probes_ok, List.range_eq_range']

/-- Sequential hashing of a list of already-resolved nodes, used to state
the order of the element walk of ArrayHash::on_array. -/
def array_hash_list (sh : String → Int) : List Vertex → Int → Option Int
  | [], h => some h
  | v :: rest, h =>
    match array_hash sh v h with
    | none => none
    | some h1 => array_hash_list sh rest h1

theorem array_hash_args_eq_list (sh : String → Int) :
    ∀ es h, array_hash_args sh es h =
      array_hash_list sh (es.map get_actual_value) h := by
  intro es
  induction es with
  | nil => intro h; simp [array_hash_args, array_hash_list]
  | cons e rest ih =>
    intro h
    rw [array_hash_args, List.map_cons, array_hash_list]
    cases array_hash sh (get_actual_value e) h with
    | none => rfl
    | some h1 => exact ih h1

/-- C3: the hash accumulator advances by hash * 56235515617499 + feed on
64-bit signed machine arithmetic, and on an array node it feeds the
element count, then the sentinel 536536536536960, then hashes the
elements resolved to their actual values from left to right, then feeds
the sentinel 288288288288069. -/
theorem c3_array_hash_structure (sh : String → Int) :
    (∀ h v, feed_hash h v = wrap64 (h * 56235515617499 + v)) ∧
    (∀ es h, array_hash sh (.arr es) h =
      (array_hash_list sh (es.map get_actual_value)
        (feed_hash (feed_hash h (es.length : Int)) 536536536536960)).map
        (fun h1 => feed_hash h1 288288288288069)) := by
  constructor
  · intro h v
    rfl
  · intro es h
    rw [array_hash, ← array_hash_args_eq_list]
    simp only [MAGIC1, MAGIC2]
    cases array_hash_args sh es
        (feed_hash (feed_hash h (es.length : Int)) 536536536536960) with
    | none => rfl
    | some h1 => rfl

/-- Modelled from the spec: string_hash (common-php-functions.h, outside
src).  The spec constrains only that strings are turned into a 64-bit
feed value; a simple character fold distinguishes the two literal texts
used in the non-commutativity instance below. -/
def string_hash_model (s : String) : Int :=
  s.data.foldl (fun a c => a * 131 + (c.toNat : Int)) 0

/-- C8: ArrayHash::on_binary hashes the left child, then feeds the
textual operator tag, then hashes the right child; as a consequence the
hash is order-sensitive: the constant operands 1 and 2 hash differently
under op_add in the two orders. -/
theorem c8_binary_hash_order :
    (∀ (sh : String → Int) k l r h,
      array_hash sh (.binary k l r) h =
        (array_hash sh l h).bind
          (fun h1 => array_hash sh r (feed_hash h1 (sh (binStr k))))) ∧
    calc_hash string_hash_model
        (.binary .op_add (.trivial .op_int_const "1") (.trivial .op_int_const "2")) ≠
      calc_hash string_hash_model
        (.binary .op_add (.trivial .op_int_const "2") (.trivial .op_int_const "1")) := by
  constructor
  · intro sh k l r h
    rw [array_hash]
    cases array_hash sh l h with
    | none => rfl
    | some h1 => rfl
  · simp only [calc_hash, get_actual_value, array_hash, has_get_string, trivStr, binStr,
      feed_hash, wrap64, HASH_MULT, string_hash_model]
    decide

theorem to_string_args_eq (es : List Vertex) :
    to_string_args es =
      (es.mapM (fun e => to_string_visit (get_actual_value e))).map
        (fun ts => ts.foldr (fun t acc => t ++ ", " ++ acc) "") := by
  induction es with
  | nil =>
    rw [to_string_args]
    rfl
  | cons e rest ih =>
    rw [to_string_args, List.mapM_cons]
    cases to_string_visit (get_actual_value e) with
    | none => rfl
    | some t =>
      rw [ih]
      cases rest.mapM (fun e => to_string_visit (get_actual_value e)) with
      | none => rfl
      | some ts => rfl

/-- C9: the formatter renders an array node as the concatenation of each
formatted form of each resolved element, each immediately followed by the
separator comma-space, the one after the last element included. -/
theorem c9_format_array (es : List Vertex) :
    to_string (.arr es) =
      (es.mapM (fun e => to_string_visit (get_actual_value e))).map
        (fun ts => ts.foldr (fun t acc => t ++ ", " ++ acc) "") := by
  have h1 : get_actual_value (.arr es) = .arr es := rfl
  rw [to_string, h1, to_string_visit, to_string_args_eq]

mutual

/-- Nodes built without variable references and define-value references:
the fragment of constant trees on which the folder produces a real result
vertex (see the C1 theorems; on a constant variable or define-value
reference MakeConst falls through to on_non_const and yields the empty
VertexPtr). -/
def ref_free : Vertex → Bool
  | .trivial _ _ => true
  | .conv e => ref_free e
  | .unary _ e => ref_free e
  | .binary _ l r => ref_free l && ref_free r
  | .arr es => ref_free_list es
  | .double_arrow k v => ref_free k && ref_free v
  | .var _ _ _ => false
  | .instance_prop o _ => ref_free o
  | .func_name _ => true
  | .define_val _ => false
  | .concat es => ref_free_list es
  | .string_build es => ref_free_list es
  | .other _ _ => true
termination_by v => sizeOf v

def ref_free_list : List Vertex → Bool
  | [] => true
  | e :: rest => ref_free e && ref_free_list rest
termination_by es => sizeOf es

end

theorem get_actual_value_of_ref_free (v : Vertex) (h : ref_free v = true) :
    get_actual_value v = v := by
  cases v <;> first | rfl | simp [ref_free] at h

theorem vertex_sizeOf_pos (v : Vertex) : 0 < sizeOf v := by
  cases v <;> simp <;> omega

theorem vlist_sizeOf_pos (es : List Vertex) : 0 < sizeOf es := by
  cases es <;> simp <;> omega

theorem is_const_args_cons (e : Vertex) (rest : List Vertex)
    (hne : ∀ k v, e ≠ .double_arrow k v) :
    is_const_args (e :: rest) =
      (is_const (get_actual_value e) && is_const_args rest) := by
  cases e
  case double_arrow k v => exact absurd rfl (hne k v)
  all_goals simp [is_const_args]

mutual

theorem mk_ref_free (resolve : String → String) (defs : String → Option Vertex) :
    (v : Vertex) → ref_free v = true → is_const v = true →
    ∃ r, make_const resolve defs v = some (some r, []) ∧
      is_const r = true ∧ ref_free r = true
  | .trivial k s, hrf, hic => ⟨.trivial k s, by rw [make_const], hic, hrf⟩
  | .conv e, hrf, hic => by
    rw [ref_free] at hrf
    rw [is_const] at hic
    obtain ⟨r, hmk, h1, h2⟩ := mk_ref_free resolve defs e hrf hic
    exact ⟨r, by rw [make_const]; exact hmk, h1, h2⟩
  | .unary k e, hrf, hic => by
    rw [ref_free] at hrf
    rw [is_const] at hic
    obtain ⟨r, hmk, h1, h2⟩ := mk_ref_free resolve defs e hrf hic
    refine ⟨.unary k r, ?_, ?_, ?_⟩
    · rw [make_const, hmk]
    · rw [is_const]; exact h1
    · rw [ref_free]; exact h2
  | .binary k l r, hrf, hic => by
    rw [ref_free] at hrf
    rw [is_const] at hic
    simp only [Bool.and_eq_true] at hrf hic
    rw [get_actual_value_of_ref_free l hrf.1,
      get_actual_value_of_ref_free r hrf.2] at hic
    obtain ⟨l2, hmkl, hl1, hl2⟩ := mk_ref_free resolve defs l hrf.1 hic.1
    obtain ⟨r2, hmkr, hr1, hr2⟩ := mk_ref_free resolve defs r hrf.2 hic.2
    refine ⟨.binary k l2 r2, ?_, ?_, ?_⟩
    · rw [make_const, hmkl, hmkr]
      rfl
    · rw [is_const, get_actual_value_of_ref_free l2 hl2,
        get_actual_value_of_ref_free r2 hr2, hl1, hr1]
      rfl
    · rw [ref_free, hl2, hr2]
      rfl
  | .arr es, hrf, hic => by
    rw [ref_free] at hrf
    rw [is_const] at hic
    obtain ⟨es2, hmk, h1, h2⟩ := mk_ref_free_args resolve defs es hrf hic
    refine ⟨.arr es2, ?_, ?_, ?_⟩
    · rw [make_const, hmk]
    · rw [is_const]; exact h1
    · rw [ref_free]; exact h2
  | .var n extra vid, hrf, _ => by simp [ref_free] at hrf
  | .define_val w, hrf, _ => by simp [ref_free] at hrf
  | .func_name n, _, hic => by simp [is_const] at hic
  | .double_arrow k w, _, hic => by simp [is_const] at hic
  | .instance_prop o p, _, hic => by simp [is_const] at hic
  | .concat es, _, hic => by simp [is_const] at hic
  | .string_build es, _, hic => by simp [is_const] at hic
  | .other t s, _, hic => by simp [is_const] at hic
termination_by v => sizeOf v
decreasing_by
  all_goals simp_wf
  all_goals omega

theorem mk_ref_free_args (resolve : String → String) (defs : String → Option Vertex) :
    (es : List Vertex) → ref_free_list es = true → is_const_args es = true →
    ∃ es2, make_const_args resolve defs es = some (es2, []) ∧
      is_const_args es2 = true ∧ ref_free_list es2 = true
  | [], _, _ =>
    ⟨[], by rw [make_const_args], by rw [is_const_args], by rw [ref_free_list]⟩
  | e :: rest, hrf, hic => by
    cases hE : e with
    | double_arrow k v =>
      rw [hE] at hrf hic
      rw [ref_free_list, ref_free] at hrf
      rw [is_const_args] at hic
      simp only [Bool.and_eq_true] at hrf hic
      obtain ⟨⟨hrfk, hrfv⟩, hrfrest⟩ := hrf
      obtain ⟨⟨hick, hicv⟩, hicrest⟩ := hic
      rw [get_actual_value_of_ref_free k hrfk] at hick
      rw [get_actual_value_of_ref_free v hrfv] at hicv
      obtain ⟨k2, hmkk, hick2, hrfk2⟩ := mk_ref_free resolve defs k hrfk hick
      obtain ⟨v2, hmkv, hicv2, hrfv2⟩ := mk_ref_free resolve defs v hrfv hicv
      obtain ⟨rest2, hmkr, hicr2, hrfr2⟩ :=
        mk_ref_free_args resolve defs rest hrfrest hicrest
      refine ⟨.double_arrow k2 v2 :: rest2, ?_, ?_, ?_⟩
      · rw [make_const_args, hmkk, hmkv, hmkr]
        rfl
      · rw [is_const_args, get_actual_value_of_ref_free k2 hrfk2,
          get_actual_value_of_ref_free v2 hrfv2, hick2, hicv2, hicr2]
        rfl
      · rw [ref_free_list, ref_free, hrfk2, hrfv2, hrfr2]
        rfl
    | trivial k s =>
      rw [hE] at hrf hic
      exact mk_args_cons_bare resolve defs (.trivial k s) rest
        (fun a b hx => Vertex.noConfusion hx) hrf hic
    | conv e2 =>
      rw [hE] at hrf hic
      exact mk_args_cons_bare resolve defs (.conv e2) rest
        (fun a b hx => Vertex.noConfusion hx) hrf hic
    | unary k e2 =>
      rw [hE] at hrf hic
      exact mk_args_cons_bare resolve defs (.unary k e2) rest
        (fun a b hx => Vertex.noConfusion hx) hrf hic
    | binary k l r =>
      rw [hE] at hrf hic
      exact mk_args_cons_bare resolve defs (.binary k l r) rest
        (fun a b hx => Vertex.noConfusion hx) hrf hic
    | arr es2 =>
      rw [hE] at hrf hic
      exact mk_args_cons_bare resolve defs (.arr es2) rest
        (fun a b hx => Vertex.noConfusion hx) hrf hic
    | var n extra vid =>
      rw [hE] at hrf hic
      exact mk_args_cons_bare resolve defs (.var n extra vid) rest
        (fun a b hx => Vertex.noConfusion hx) hrf hic
    | instance_prop o p =>
      rw [hE] at hrf hic
      exact mk_args_cons_bare resolve defs (.instance_prop o p) rest
        (fun a b hx => Vertex.noConfusion hx) hrf hic
    | func_name n =>
      rw [hE] at hrf hic
      exact mk_args_cons_bare resolve defs (.func_name n) rest
        (fun a b hx => Vertex.noConfusion hx) hrf hic
    | define_val w =>
      rw [hE] at hrf hic
      exact mk_args_cons_bare resolve defs (.define_val w) rest
        (fun a b hx => Vertex.noConfusion hx) hrf hic
    | concat es2 =>
      rw [hE] at hrf hic
      exact mk_args_cons_bare resolve defs (.concat es2) rest
        (fun a b hx => Vertex.noConfusion hx) hrf hic
    | string_build es2 =>
      rw [hE] at hrf hic
      exact mk_args_cons_bare resolve defs (.string_build es2) rest
        (fun a b hx => Vertex.noConfusion hx) hrf hic
    | other t s =>
      rw [hE] at hrf hic
      exact mk_args_cons_bare resolve defs (.other t s) rest
        (fun a b hx => Vertex.noConfusion hx) hrf hic
termination_by es => sizeOf es
decreasing_by
  all_goals simp_wf
  all_goals try subst hE
  all_goals try simp
  all_goals omega

theorem mk_args_cons_bare (resolve : String → String) (defs : String → Option Vertex)
    (e : Vertex) (rest : List Vertex) (hne : ∀ k v, e ≠ .double_arrow k v)
    (hrf : ref_free_list (e :: rest) = true) (hic : is_const_args (e :: rest) = true) :
    ∃ es2, make_const_args resolve defs (e :: rest) = some (es2, []) ∧
      is_const_args es2 = true ∧ ref_free_list es2 = true := by
  rw [ref_free_list] at hrf
  simp only [Bool.and_eq_true] at hrf
  obtain ⟨hrfe, hrfrest⟩ := hrf
  rw [is_const_args_cons e rest hne, get_actual_value_of_ref_free e hrfe] at hic
  simp only [Bool.and_eq_true] at hic
  obtain ⟨hice, hicrest⟩ := hic
  obtain ⟨e2, hmke, hice2, hrfe2⟩ := mk_ref_free resolve defs e hrfe hice
  obtain ⟨rest2, hmkrest, hicrest2, hrfrest2⟩ :=
    mk_ref_free_args resolve defs rest hrfrest hicrest
  have hne2 : ∀ k v, e2 ≠ .double_arrow k v := by
    intro k v hx
    rw [hx] at hice2
    simp [is_const] at hice2
  refine ⟨e2 :: rest2, ?_, ?_, ?_⟩
  · cases e
    case double_arrow k v => exact absurd rfl (hne k v)
    all_goals simp_all [make_const_args]
  · rw [is_const_args_cons e2 rest2 hne2, get_actual_value_of_ref_free e2 hrfe2,
      hice2, hicrest2]
    rfl
  · rw [ref_free_list, hrfe2, hrfrest2]
    rfl
termination_by sizeOf e + sizeOf rest
decreasing_by
  all_goals simp_wf
  all_goals (first
    | omega
    | (have h1 := vlist_sizeOf_pos rest
       have h2 := vertex_sizeOf_pos e
       omega))

end

/-- C1 counterexample: a variable reference carrying the op_ex_var_const
annotation and a binding whose initializer is the literal 1 is accepted by
CheckConst::is_const, but MakeConst has no on_var override, so make_const
falls through to on_non_const and returns the empty VertexPtr: there is no
result vertex on which is_const could hold (and the C++ caller would
dereference a null pointer checking it). -/
theorem c1_counterexample :
    CheckConst_is_const (.var "x" true (some (false, .trivial .op_int_const "1"))) = true ∧
    make_const id (fun _ => none)
      (.var "x" true (some (false, .trivial .op_int_const "1"))) = some (none, []) ∧
    ¬∃ r ds, make_const id (fun _ => none)
      (.var "x" true (some (false, .trivial .op_int_const "1"))) = some (some r, ds) := by
  refine ⟨by simp [CheckConst_is_const, is_const], by simp [make_const], ?_⟩
  rintro ⟨r, ds, h⟩
  simp [make_const] at h

/-- C1 (amended): on every node free of variable references and
define-value references, folding preserves constancy: if is_const holds
then make_const does not crash, produces a real result vertex with no
diagnostics, and the result again satisfies is_const. -/
theorem c1_fold_preserves_const_ref_free (resolve : String → String)
    (defs : String → Option Vertex) (v : Vertex)
    (h1 : ref_free v = true) (h2 : CheckConst_is_const v = true) :
    ∃ r, make_const resolve defs v = some (some r, []) ∧
      CheckConst_is_const r = true := by
  obtain ⟨r, hmk, hic, -⟩ := mk_ref_free resolve defs v h1 h2
  exact ⟨r, hmk, hic⟩

theorem c1_witness :
    ∃ r, make_const id (fun _ => none)
      (.arr [.trivial .op_int_const "1",
        .double_arrow (.trivial .op_string "k") (.trivial .op_int_const "2")]) =
      some (some r, []) ∧ CheckConst_is_const r = true :=
  c1_fold_preserves_const_ref_free id (fun _ => none) _
    (by simp [ref_free, ref_free_list])
    (by simp [CheckConst_is_const, is_const, is_const_args, get_actual_value])

/-- C2 (amended): a function-name reference whose canonicalized name is
registered in the define table is replaced by the stored value
expression exactly as stored — MakeConst::on_func_name returns
G->get_define(name)->val without folding it. -/
theorem c2_func_name_returns_stored_value (resolve : String → String)
    (defs : String → Option Vertex) (n : String) (dv : Vertex)
    (h : defs (resolve n) = some dv) :
    make_const resolve defs (.func_name n) = some (some dv, []) := by
  rw [make_const, h]

theorem c2_witness :
    make_const id
      (fun s => if s = "C" then some (.conv (.trivial .op_int_const "1")) else none)
      (.func_name "C") = some (some (.conv (.trivial .op_int_const "1")), []) :=
  c2_func_name_returns_stored_value id _ "C" _ (by simp)

/-- C2 counterexample: with the define C registered as the stored value
conv(1), make_const on the reference returns conv(1) itself, while
make_const applied to the stored value strips the conversion and returns
the literal 1 — the reference is not replaced by the folded form of the
stored value. -/
theorem c2_counterexample :
    (fun s => if s = "C" then some (Vertex.conv (.trivial .op_int_const "1")) else none)
      (id "C") = some (.conv (.trivial .op_int_const "1")) ∧
    make_const id
      (fun s => if s = "C" then some (.conv (.trivial .op_int_const "1")) else none)
      (.func_name "C") = some (some (.conv (.trivial .op_int_const "1")), []) ∧
    make_const id
      (fun s => if s = "C" then some (.conv (.trivial .op_int_const "1")) else none)
      (.conv (.trivial .op_int_const "1")) = some (some (.trivial .op_int_const "1"), []) ∧
    make_const id
      (fun s => if s = "C" then some (.conv (.trivial .op_int_const "1")) else none)
      (.func_name "C") ≠
      make_const id
        (fun s => if s = "C" then some (.conv (.trivial .op_int_const "1")) else none)
        (.conv (.trivial .op_int_const "1")) := by
  refine ⟨by simp, by simp [make_const], by simp [make_const], ?_⟩
  intro h
  simp [make_const] at h

theorem make_const_strings_diag (resolve : String → String)
    (defs : String → Option Vertex) :
    ∀ (cs : List Vertex) (sv : String) (ds : List String) (e fe : Vertex)
      (dse : List String),
    make_const_strings resolve defs cs = some (sv, ds) → e ∈ cs →
    make_const resolve defs e = some (some fe, dse) → has_get_string fe = false →
    ("expected type convertible to string, but got: " ++ opStr fe) ∈ ds := by
  intro cs
  induction cs with
  | nil =>
    intro sv ds e fe dse _ hmem
    simp at hmem
  | cons c rest ih =>
    intro sv ds e fe dse h hmem hfold hhgs
    rw [make_const_strings] at h
    cases hmc : make_const resolve defs c with
    | none =>
      rw [hmc] at h
      simp at h
    | some pr =>
      obtain ⟨ro, dsc⟩ := pr
      cases ro with
      | none =>
        rw [hmc] at h
        simp at h
      | some rc =>
        rw [hmc] at h
        cases hms : make_const_strings resolve defs rest with
        | none =>
          rw [hms] at h
          simp at h
        | some pr2 =>
          obtain ⟨sv2, ds2⟩ := pr2
          rw [hms] at h
          simp only [Option.some.injEq, Prod.mk.injEq] at h
          obtain ⟨-, hds⟩ := h
          rcases List.mem_cons.mp hmem with hec | hemem
          · subst hec
            rw [hfold] at hmc
            simp only [Option.some.injEq, Prod.mk.injEq] at hmc
            obtain ⟨hfe, -⟩ := hmc
            subst hfe
            rw [← hds]
            rw [hhgs]
            simp
          · have := ih sv2 ds2 e fe dse hms hemem hfold hhgs
            rw [← hds]
            simp [this]

/-- C6 (amended): when make_const folds a concatenation node or a
string-build node (both handled by the same on_non_const loop) and some
folded child has no string representation, a diagnostic naming the kind
tag of that child is reported through the diagnostic channel; the loop
then continues best-effort over the remaining elements (their string
forms are still appended to the synthesized literal). -/
theorem c6_diag_names_offender (resolve : String → String)
    (defs : String → Option Vertex) (v : Vertex) (cs : List Vertex)
    (rv : Option Vertex) (ds : List String) (e fe : Vertex) (dse : List String)
    (hv : v = .concat cs ∨ v = .string_build cs)
    (h1 : make_const resolve defs v = some (rv, ds))
    (h2 : e ∈ cs) (h3 : make_const resolve defs e = some (some fe, dse))
    (h4 : has_get_string fe = false) :
    ("expected type convertible to string, but got: " ++ opStr fe) ∈ ds := by
  rcases hv with rfl | rfl
  all_goals
    rw [make_const] at h1
    cases hms : make_const_strings resolve defs cs with
    | none =>
      rw [hms] at h1
      simp at h1
    | some pr =>
      obtain ⟨sv, ds2⟩ := pr
      rw [hms] at h1
      simp only [Option.some.injEq, Prod.mk.injEq] at h1
      obtain ⟨-, hds⟩ := h1
      rw [← hds]
      exact make_const_strings_diag resolve defs cs sv ds2 e fe dse hms h2 h3 h4

theorem c6_witness :
    ("expected type convertible to string, but got: " ++ opStr (Vertex.arr [])) ∈
      ["expected type convertible to string, but got: array"] ∧
    ("expected type convertible to string, but got: " ++
        opStr (Vertex.trivial .op_null "")) ∈
      ["expected type convertible to string, but got: null"] :=
  ⟨c6_diag_names_offender id (fun _ => none)
      (.concat [.arr [], .trivial .op_string "b"])
      [.arr [], .trivial .op_string "b"]
      (some (.trivial .op_string "b"))
      ["expected type convertible to string, but got: array"]
      (.arr []) (.arr []) []
      (Or.inl rfl)
      (by simp [make_const, make_const_strings, make_const_args, has_get_string,
        get_string, opStr])
      (by simp)
      (by simp [make_const, make_const_args])
      (by simp [has_get_string]),
    c6_diag_names_offender id (fun _ => none)
      (.string_build [.trivial .op_null "", .trivial .op_string "b"])
      [.trivial .op_null "", .trivial .op_string "b"]
      (some (.trivial .op_string "b"))
      ["expected type convertible to string, but got: null"]
      (.trivial .op_null "") (.trivial .op_null "") []
      (Or.inr rfl)
      (by simp [make_const, make_const_strings, has_get_string, get_string,
        opStr, trivStr])
      (by simp)
      (by simp [make_const])
      (by simp [has_get_string])⟩

/-- C6 counterexample: folding the concatenation — and likewise the
string-build node — whose first child is the (non-stringifiable) empty
constant array and whose second child is the string literal b reports the
diagnostic for the array — and then proceeds past the failing element: the
second child is still folded and its text b is appended, so the
synthesized string node carries the value b in both cases. -/
theorem c6_counterexample :
    make_const id (fun _ => none) (.concat [.arr [], .trivial .op_string "b"]) =
      some (some (.trivial .op_string "b"),
        ["expected type convertible to string, but got: array"]) ∧
    make_const id (fun _ => none) (.string_build [.arr [], .trivial .op_string "b"]) =
      some (some (.trivial .op_string "b"),
        ["expected type convertible to string, but got: array"]) := by
  constructor <;>
    simp [make_const, make_const_strings, make_const_args, has_get_string,
      get_string, opStr]

end KphpConst
